import Mathlib

/-!
Verification development for the RSS REST API service (`rss-rest-api.py`).

The file shallowly embeds the core of the program: the date normalizer
(`FeedStorage._parse_date`, built on Python `datetime.strptime`), the data
model (`FeedEntry`, `RssFeed` with its bounded prepend `add_entry`), the
store operations, the retention sweep (`_cleanup_old_entries`), the query
filter (`filter_feeds`, using `datetime.fromisoformat` and `int`), the
aggregate construction of `get_all_feeds_xml` / `search_feeds`, and the
dict (de)serialization (`to_dict` / `from_dict`) together with `load`.

Conventions of the embedding:
* A Python `datetime` is a `PyDateTime`: a count of seconds on the
  proleptic Gregorian calendar (matching `datetime.toordinal`) plus an
  optional UTC offset.  Offset-naive and offset-aware values do not
  compare (Python raises `TypeError`); comparisons therefore return
  `Option Bool`, and operations that perform such comparisons return
  `Except Unit _` (the error standing for the raised exception).
* `uuid.uuid4()` is modelled by an explicit `fresh : String` argument.
  Distinctness of successive generated ids is not modelled; no theorem
  below depends on it.
* The wall clock `datetime.datetime.now()` is modelled by an explicit
  `now : Int` argument; all clock reads during one operation are modelled
  as observing the same value.
* Character classes (`\d`, `\s`, `str.lower`) are modelled at ASCII
  granularity; sub-second precision (strptime `%z` fractions, iso
  fractions) is truncated to whole seconds.  No theorem below depends on
  non-ASCII input or sub-second values.
-/

/-! ## Calendar arithmetic (Python `datetime.toordinal` convention) -/

def isLeap (y : Nat) : Bool := y % 4 == 0 && (y % 100 != 0 || y % 400 == 0)

def daysInMonth (y m : Nat) : Nat :=
  if m = 2 then (if isLeap y then 29 else 28)
  else if m = 4 ∨ m = 6 ∨ m = 9 ∨ m = 11 then 30
  else 31

/-- Days in year `y` strictly before month `m`. -/
def daysBeforeMonth (y m : Nat) : Nat :=
  (List.range (m - 1)).foldl (fun a i => a + daysInMonth y (i + 1)) 0

/-- Proleptic Gregorian ordinal of a date, with 0001-01-01 being day 1
(the convention of Python `date.toordinal`). -/
def toOrdinal (y m d : Nat) : Nat :=
  let q := y - 1
  365 * q + q / 4 - q / 100 + q / 400 + daysBeforeMonth y m + d

/-- Seconds-valued instant of a civil date-time on the proleptic Gregorian
calendar. -/
def civilSec (y mo d h mi s : Nat) : Int :=
  ((toOrdinal y mo d) * 86400 + h * 3600 + mi * 60 + s : Nat)

/-! ## Python datetime values and comparisons -/

/-- A Python `datetime` value: `sec` is the naive (local-field) instant in
seconds, `off` is `utcoffset()` in seconds (`none` for offset-naive
values). -/
structure PyDateTime where
  sec : Int
  off : Option Int
deriving DecidableEq, Repr

/-- Python `a < b` on datetimes: comparing an offset-naive with an
offset-aware value raises `TypeError`, modelled as `none`. -/
def pyLt (a b : PyDateTime) : Option Bool :=
  match a.off, b.off with
  | none, none => some (decide (a.sec < b.sec))
  | some x, some y => some (decide (a.sec - x < b.sec - y))
  | _, _ => none

def pyGt (a b : PyDateTime) : Option Bool := pyLt b a

def pyGe (a b : PyDateTime) : Option Bool :=
  match pyLt a b with
  | none => none
  | some v => some (!v)

def pyLe (a b : PyDateTime) : Option Bool := pyGe b a

/-! ## Character-level helpers for the strptime / isoformat parsers -/

def dva (c : Char) : Nat := c.toNat - 48

/-- ASCII whitespace, the core of Python's `\s`. -/
def isWs (c : Char) : Bool :=
  c = ' ' || c = '\t' || c = '\n' || c = '\r' || c = '\x0b' || c = '\x0c'

def dropWsChars : List Char → List Char
  | [] => []
  | c :: cs => if isWs c then dropWsChars cs else c :: cs

/-- `\s+` of Python `strptime`: at least one whitespace character. -/
def pWs : List Char → Option (List Char)
  | [] => none
  | c :: cs => if isWs c then some (dropWsChars cs) else none

/-- A literal character of a strptime pattern; the compiled regex carries
`re.IGNORECASE`, so literals match case-insensitively. -/
def pLitCI (c : Char) : List Char → Option (List Char)
  | [] => none
  | x :: xs => if x.toLower = c.toLower then some xs else none

/-- Take three characters, lowercased, as a candidate name token. -/
def lower3 : List Char → Option (String × List Char)
  | a :: b :: c :: rest => some (String.mk [a.toLower, b.toLower, c.toLower], rest)
  | _ => none

/-- `%a`: an abbreviated weekday name (C locale).  `strptime` does not
check consistency with the parsed date, so the value is discarded. -/
def pWeekday (cs : List Char) : Option (List Char) :=
  match lower3 cs with
  | some (w, rest) =>
      if ["sun", "mon", "tue", "wed", "thu", "fri", "sat"].contains w then some rest else none
  | none => none

def monthNames : List String :=
  ["jan", "feb", "mar", "apr", "may", "jun", "jul", "aug", "sep", "oct", "nov", "dec"]

/-- `%b`: an abbreviated month name (C locale), yielding 1..12. -/
def pMonthName (cs : List Char) : Option (Nat × List Char) :=
  match lower3 cs with
  | some (w, rest) =>
      match monthNames.findIdx? (· == w) with
      | some i => some (i + 1, rest)
      | none => none
  | none => none

/-- `%Z`: a timezone name.  In a UTC-configured process the accepted names
are exactly `utc` and `gmt` (case-insensitive); the match does not make
the parsed `datetime` offset-aware. -/
def pTzName (cs : List Char) : Option (List Char) :=
  match lower3 cs with
  | some (w, rest) => if ["utc", "gmt"].contains w then some rest else none
  | none => none

/-- `%d`: regex `3[01]|[12]\d|0[1-9]|[1-9]`. -/
def pDay : List Char → Option (Nat × List Char)
  | a :: b :: rest =>
      if a == '3' && (b == '0' || b == '1') then some (30 + dva b, rest)
      else if (a == '1' || a == '2') && b.isDigit then some (10 * dva a + dva b, rest)
      else if a == '0' && b.isDigit && b != '0' then some (dva b, rest)
      else if a.isDigit && a != '0' then some (dva a, b :: rest)
      else none
  | [a] => if a.isDigit && a != '0' then some (dva a, []) else none
  | [] => none

/-- `%m`: regex `1[0-2]|0[1-9]|[1-9]`. -/
def pMonthNum : List Char → Option (Nat × List Char)
  | a :: b :: rest =>
      if a == '1' && b.isDigit && dva b ≤ 2 then some (10 + dva b, rest)
      else if a == '0' && b.isDigit && b != '0' then some (dva b, rest)
      else if a.isDigit && a != '0' then some (dva a, b :: rest)
      else none
  | [a] => if a.isDigit && a != '0' then some (dva a, []) else none
  | [] => none

/-- `%Y`: regex `\d\d\d\d`, exactly four digits. -/
def pYear : List Char → Option (Nat × List Char)
  | a :: b :: c :: d :: rest =>
      if a.isDigit && b.isDigit && c.isDigit && d.isDigit then
        some (1000 * dva a + 100 * dva b + 10 * dva c + dva d, rest)
      else none
  | _ => none

/-- `%H`: regex `2[0-3]|[0-1]\d|\d`. -/
def pHour : List Char → Option (Nat × List Char)
  | a :: b :: rest =>
      if a == '2' && b.isDigit && dva b ≤ 3 then some (20 + dva b, rest)
      else if (a == '0' || a == '1') && b.isDigit then some (10 * dva a + dva b, rest)
      else if a.isDigit then some (dva a, b :: rest)
      else none
  | [a] => if a.isDigit then some (dva a, []) else none
  | [] => none

/-- `%M`: regex `[0-5]\d|\d`. -/
def pMin : List Char → Option (Nat × List Char)
  | a :: b :: rest =>
      if a.isDigit && dva a ≤ 5 && b.isDigit then some (10 * dva a + dva b, rest)
      else if a.isDigit then some (dva a, b :: rest)
      else none
  | [a] => if a.isDigit then some (dva a, []) else none
  | [] => none

/-- `%S`: regex `6[0-1]|[0-5]\d|\d` (leap seconds are matched by the regex
but rejected later by the `datetime` constructor). -/
def pSec : List Char → Option (Nat × List Char)
  | a :: b :: rest =>
      if a == '6' && (b == '0' || b == '1') then some (60 + dva b, rest)
      else if a.isDigit && dva a ≤ 5 && b.isDigit then some (10 * dva a + dva b, rest)
      else if a.isDigit then some (dva a, b :: rest)
      else none
  | [a] => if a.isDigit then some (dva a, []) else none
  | [] => none

/-- Greedy optional fraction `(\.\d{1,6})?`: consumes a dot followed by up
to six digits when present; the fractional value is truncated (whole-second
model). -/
def pFracOpt (cs : List Char) : List Char :=
  match cs with
  | '.' :: rest =>
      let ds := rest.takeWhile Char.isDigit
      if ds.length == 0 then cs else rest.drop (min ds.length 6)
  | _ => cs

/-- Bound check of `datetime.timezone`: the offset must be strictly within
one day. -/
def mkOff (sign : Int) (hh mm ss : Nat) (rest : List Char) : Option (Int × List Char) :=
  let total : Nat := hh * 3600 + mm * 60 + ss
  if total < 86400 then some (sign * (total : Int), rest) else none

/-- `%z`: regex `[+-]\d\d:?[0-5]\d(:?[0-5]\d(\.\d{1,6})?)?|(?-i:Z)`, with
the post-match consistency rule of `_strptime` (colons are used either
throughout the offset or not at all). -/
def pOffset : List Char → Option (Int × List Char)
  | 'Z' :: rest => some (0, rest)
  | s :: h1 :: h2 :: rest =>
      if (s == '+' || s == '-') && h1.isDigit && h2.isDigit then
        let sign : Int := if s == '+' then 1 else -1
        let hh := 10 * dva h1 + dva h2
        match rest with
        | ':' :: m1 :: m2 :: rest2 =>
            if m1.isDigit && dva m1 ≤ 5 && m2.isDigit then
              let mm := 10 * dva m1 + dva m2
              match rest2 with
              | ':' :: s1 :: s2 :: rest3 =>
                  if s1.isDigit && dva s1 ≤ 5 && s2.isDigit then
                    mkOff sign hh mm (10 * dva s1 + dva s2) (pFracOpt rest3)
                  else mkOff sign hh mm 0 rest2
              | _ => mkOff sign hh mm 0 rest2
            else none
        | m1 :: m2 :: rest2 =>
            if m1.isDigit && dva m1 ≤ 5 && m2.isDigit then
              let mm := 10 * dva m1 + dva m2
              match rest2 with
              | s1 :: s2 :: rest3 =>
                  if s1.isDigit && dva s1 ≤ 5 && s2.isDigit then
                    mkOff sign hh mm (10 * dva s1 + dva s2) (pFracOpt rest3)
                  else mkOff sign hh mm 0 rest2
              | _ => mkOff sign hh mm 0 rest2
            else none
        | _ => none
      else none
  | _ => none

/-- Validation performed by the `datetime` constructor after a regex
match: year at least `MINYEAR`, day within the month, and time fields in
range (leap seconds are rejected here). -/
def mkDT (y mo d h mi s : Nat) (off : Option Int) : Option PyDateTime :=
  if 1 ≤ y && 1 ≤ mo && mo ≤ 12 && 1 ≤ d && d ≤ daysInMonth y mo
      && h ≤ 23 && mi ≤ 59 && s ≤ 59 then
    some ⟨civilSec y mo d h mi s, off⟩
  else none

/-! ## The five strptime patterns of `FeedStorage._parse_date` -/

/-- Common body `%a, %d %b %Y %H:%M:%S ` of the three RFC-822-style
patterns, up to and including the trailing whitespace before the zone
part. -/
def pRfcCore (cs : List Char) : Option ((Nat × Nat × Nat × Nat × Nat × Nat) × List Char) :=
  match pWeekday cs with
  | none => none
  | some cs =>
  match pLitCI ',' cs with
  | none => none
  | some cs =>
  match pWs cs with
  | none => none
  | some cs =>
  match pDay cs with
  | none => none
  | some (d, cs) =>
  match pWs cs with
  | none => none
  | some cs =>
  match pMonthName cs with
  | none => none
  | some (mo, cs) =>
  match pWs cs with
  | none => none
  | some cs =>
  match pYear cs with
  | none => none
  | some (y, cs) =>
  match pWs cs with
  | none => none
  | some cs =>
  match pHour cs with
  | none => none
  | some (h, cs) =>
  match pLitCI ':' cs with
  | none => none
  | some cs =>
  match pMin cs with
  | none => none
  | some (mi, cs) =>
  match pLitCI ':' cs with
  | none => none
  | some cs =>
  match pSec cs with
  | none => none
  | some (s, cs) =>
  match pWs cs with
  | none => none
  | some cs => some ((y, mo, d, h, mi, s), cs)

/-- `"%a, %d %b %Y %H:%M:%S %Z"`. -/
def pFmtRfcZ (cs : List Char) : Option PyDateTime :=
  match pRfcCore cs with
  | none => none
  | some ((y, mo, d, h, mi, s), cs) =>
  match pTzName cs with
  | none => none
  | some cs => if cs.isEmpty then mkDT y mo d h mi s none else none

/-- `"%a, %d %b %Y %H:%M:%S GMT"` (literal `GMT`, matched
case-insensitively like every pattern literal). -/
def pFmtRfcGMT (cs : List Char) : Option PyDateTime :=
  match pRfcCore cs with
  | none => none
  | some ((y, mo, d, h, mi, s), cs) =>
  match pLitCI 'G' cs with
  | none => none
  | some cs =>
  match pLitCI 'M' cs with
  | none => none
  | some cs =>
  match pLitCI 'T' cs with
  | none => none
  | some cs => if cs.isEmpty then mkDT y mo d h mi s none else none

/-- `"%a, %d %b %Y %H:%M:%S +0000"` (literal offset text). -/
def pFmtRfcPlus (cs : List Char) : Option PyDateTime :=
  match pRfcCore cs with
  | none => none
  | some ((y, mo, d, h, mi, s), cs) =>
  match pLitCI '+' cs with
  | none => none
  | some cs =>
  match pLitCI '0' cs with
  | none => none
  | some cs =>
  match pLitCI '0' cs with
  | none => none
  | some cs =>
  match pLitCI '0' cs with
  | none => none
  | some cs =>
  match pLitCI '0' cs with
  | none => none
  | some cs => if cs.isEmpty then mkDT y mo d h mi s none else none

/-- Common body `%Y-%m-%dT%H:%M:%S` of the two ISO-style patterns. -/
def pIsoCore (cs : List Char) : Option ((Nat × Nat × Nat × Nat × Nat × Nat) × List Char) :=
  match pYear cs with
  | none => none
  | some (y, cs) =>
  match pLitCI '-' cs with
  | none => none
  | some cs =>
  match pMonthNum cs with
  | none => none
  | some (mo, cs) =>
  match pLitCI '-' cs with
  | none => none
  | some cs =>
  match pDay cs with
  | none => none
  | some (d, cs) =>
  match pLitCI 'T' cs with
  | none => none
  | some cs =>
  match pHour cs with
  | none => none
  | some (h, cs) =>
  match pLitCI ':' cs with
  | none => none
  | some cs =>
  match pMin cs with
  | none => none
  | some (mi, cs) =>
  match pLitCI ':' cs with
  | none => none
  | some cs =>
  match pSec cs with
  | none => none
  | some (s, cs) => some ((y, mo, d, h, mi, s), cs)

/-- `"%Y-%m-%dT%H:%M:%S%z"`; a successful `%z` makes the result
offset-aware. -/
def pFmtIsoOff (cs : List Char) : Option PyDateTime :=
  match pIsoCore cs with
  | none => none
  | some ((y, mo, d, h, mi, s), cs) =>
  match pOffset cs with
  | none => none
  | some (off, cs) => if cs.isEmpty then mkDT y mo d h mi s (some off) else none

/-- `"%Y-%m-%dT%H:%M:%SZ"` (literal `Z`, case-insensitive, offset-naive
result). -/
def pFmtIsoZ (cs : List Char) : Option PyDateTime :=
  match pIsoCore cs with
  | none => none
  | some ((y, mo, d, h, mi, s), cs) =>
  match pLitCI 'Z' cs with
  | none => none
  | some cs => if cs.isEmpty then mkDT y mo d h mi s none else none

/-- The five formats of `_parse_date`, in source order. -/
inductive Fmt
  | rfcZ | rfcGMT | rfcPlus | isoOff | isoZ
deriving DecidableEq, Repr

def strptime : Fmt → String → Option PyDateTime
  | .rfcZ, s => pFmtRfcZ s.toList
  | .rfcGMT, s => pFmtRfcGMT s.toList
  | .rfcPlus, s => pFmtRfcPlus s.toList
  | .isoOff, s => pFmtIsoOff s.toList
  | .isoZ, s => pFmtIsoZ s.toList

def formats : List Fmt := [.rfcZ, .rfcGMT, .rfcPlus, .isoOff, .isoZ]

/-- `FeedStorage._parse_date`: try each format in order, return the first
successful parse, and fall back to the current wall clock on total
failure. -/
def parse_date (now : Int) (s : String) : PyDateTime :=
  match formats.findSome? (fun f => strptime f s) with
  | some d => d
  | none => ⟨now, none⟩

/-! ## `datetime.fromisoformat` (strict grammar), `int`, `in`, slices -/

/-- Exactly two digits. -/
def p2 : List Char → Option (Nat × List Char)
  | a :: b :: rest => if a.isDigit && b.isDigit then some (10 * dva a + dva b, rest) else none
  | _ => none

/-- Time part `HH[:MM[:SS[.fff[fff]]]]` of `fromisoformat`. -/
def isoTime (cs : List Char) : Option ((Nat × Nat × Nat) × List Char) :=
  match p2 cs with
  | none => none
  | some (h, cs) =>
  match cs with
  | ':' :: cs2 =>
    (match p2 cs2 with
     | none => none
     | some (mi, cs3) =>
       match cs3 with
       | ':' :: cs4 =>
         (match p2 cs4 with
          | none => none
          | some (s, cs5) =>
            match cs5 with
            | '.' :: cs6 =>
              let ds := cs6.takeWhile Char.isDigit
              if ds.length == 3 || ds.length == 6 then some ((h, mi, s), cs6.drop ds.length)
              else none
            | _ => some ((h, mi, s), cs5))
       | _ => some ((h, mi, 0), cs3))
  | _ => some ((h, 0, 0), cs)

/-- Offset part `[+-]HH:MM[:SS[.ffffff]]` of `fromisoformat`; must consume
the whole remainder.  The resulting offset must be strictly within one day
(`datetime.timezone` bound); the fractional part is truncated. -/
def isoTz (cs : List Char) : Option Int :=
  match cs with
  | s :: h1 :: h2 :: ':' :: m1 :: m2 :: rest =>
    if (s == '+' || s == '-') && h1.isDigit && h2.isDigit && m1.isDigit && m2.isDigit then
      let sign : Int := if s == '+' then 1 else -1
      let base := (10 * dva h1 + dva h2) * 3600 + (10 * dva m1 + dva m2) * 60
      match rest with
      | [] => if base < 86400 then some (sign * (base : Int)) else none
      | ':' :: s1 :: s2 :: rest2 =>
        if s1.isDigit && s2.isDigit then
          let tot := base + 10 * dva s1 + dva s2
          match rest2 with
          | [] => if tot < 86400 then some (sign * (tot : Int)) else none
          | '.' :: ds =>
            if ds.length == 6 && ds.all Char.isDigit then
              (if tot < 86400 then some (sign * (tot : Int)) else none)
            else none
          | _ => none
        else none
      | _ => none
    else none
  | _ => none

/-- `datetime.fromisoformat` (the strict pre-3.11 grammar):
`YYYY-MM-DD[*HH[:MM[:SS[.fff[fff]]]][±HH:MM[:SS[.ffffff]]]]` where `*` is
any single separator character.  Returns `none` for `ValueError`. -/
def fromisoformat (s : String) : Option PyDateTime :=
  match s.toList with
  | y1 :: y2 :: y3 :: y4 :: '-' :: m1 :: m2 :: '-' :: d1 :: d2 :: rest =>
    if y1.isDigit && y2.isDigit && y3.isDigit && y4.isDigit
        && m1.isDigit && m2.isDigit && d1.isDigit && d2.isDigit then
      let y := 1000 * dva y1 + 100 * dva y2 + 10 * dva y3 + dva y4
      let mo := 10 * dva m1 + dva m2
      let d := 10 * dva d1 + dva d2
      match rest with
      | [] => mkDT y mo d 0 0 0 none
      | _ :: timeCs =>
        match isoTime timeCs with
        | none => none
        | some ((h, mi, s), rest2) =>
          match rest2 with
          | [] => mkDT y mo d h mi s none
          | tz =>
            match isoTz tz with
            | none => none
            | some off => mkDT y mo d h mi s (some off)
    else none
  | _ => none

/-- Strip ASCII whitespace from both ends. -/
def stripWs (cs : List Char) : List Char :=
  ((cs.dropWhile isWs).reverse.dropWhile isWs).reverse

/-- Digit tail of a Python integer literal: digits, possibly with single
underscores between digits. -/
def digsAfter (acc : Nat) : List Char → Option Nat
  | [] => some acc
  | '_' :: c :: rest => if c.isDigit then digsAfter (acc * 10 + dva c) rest else none
  | c :: rest => if c.isDigit then digsAfter (acc * 10 + dva c) rest else none

def startDigits : List Char → Option Nat
  | [] => none
  | c :: rest => if c.isDigit then digsAfter (dva c) rest else none

def pyIntCore : List Char → Option Int
  | '+' :: rest => (startDigits rest).map (fun n => (n : Int))
  | '-' :: rest => (startDigits rest).map (fun n => -(n : Int))
  | rest => (startDigits rest).map (fun n => (n : Int))

/-- Python `int(str)`: optional surrounding whitespace, optional sign,
decimal digits with optional single underscores between digits.  `none`
models `ValueError`. -/
def pyInt (s : String) : Option Int := pyIntCore (stripWs s.toList)

/-- `needle` starts `hay`. -/
def startsL : List Char → List Char → Bool
  | [], _ => true
  | _ :: _, [] => false
  | a :: as, b :: bs => a == b && startsL as bs

/-- `needle` occurs contiguously in `hay`. -/
def subL (needle : List Char) : List Char → Bool
  | [] => startsL needle []
  | h :: t => startsL needle (h :: t) || subL needle t

/-- Python `needle in hay` on strings: contiguous substring test. -/
def pyIn (needle hay : String) : Bool := subL needle.toList hay.toList

/-- Python `l[:n]`: first `n` elements for `n ≥ 0`; for negative `n`, all
but the last `|n|` elements (clamped at zero). -/
def pySlice {α : Type} (l : List α) (n : Int) : List α :=
  if 0 ≤ n then l.take n.toNat else l.take (l.length - (-n).toNat)

/-! ## Data model: `FeedEntry`, `RssFeed` -/

/-- Default of env var `MAX_ENTRIES_PER_FEED`. -/
def MAX_ENTRIES_PER_FEED : Nat := 100

/-- Default of env var `HISTORY_DAYS`. -/
def HISTORY_DAYS : Nat := 30

/-- A feed entry.  `guid` is the field value after `__init__`, where a
falsy (`None` or empty) caller value was replaced by a generated uuid, so
a constructed entry always has a nonempty guid. -/
structure FeedEntry where
  title : String
  link : String
  description : String
  pub_date : String
  guid : String
  image_url : Option String
deriving DecidableEq, Repr

/-- `FeedEntry.__init__`: `self.guid = guid or str(uuid.uuid4())`, with
`fresh` standing for the generated uuid. -/
def FeedEntry.init (title link description pub_date : String)
    (guid : Option String) (image_url : Option String) (fresh : String) : FeedEntry :=
  { title := title, link := link, description := description, pub_date := pub_date
    guid := match guid with
            | none => fresh
            | some g => if g = "" then fresh else g
    image_url := image_url }

/-- An RSS feed.  Like `guid`, `feed_id` is nonempty for every object the
constructor can produce. -/
structure RssFeed where
  title : String
  link : String
  description : String
  language : String
  feed_id : String
  entries : List FeedEntry
  image_url : Option String
deriving DecidableEq, Repr

/-- Entry-list level form of `RssFeed.add_entry`: `insert(0, entry)` then
truncation to `maxE` when the bound is exceeded. -/
def consTrunc (maxE : Nat) (e : FeedEntry) (l : List FeedEntry) : List FeedEntry :=
  let l2 := e :: l
  if l2.length > maxE then l2.take maxE else l2

/-- `RssFeed.add_entry` with the configured bound `maxE`
(`MAX_ENTRIES_PER_FEED`). -/
def RssFeed.add_entry (f : RssFeed) (maxE : Nat) (e : FeedEntry) : RssFeed :=
  { f with entries := consTrunc maxE e f.entries }

/-- A sequence of appends, oldest first (the shape shared by
`create_feed`'s initial-entry loop and repeated `appendEntry` calls). -/
def appendAll (maxE : Nat) (f : RssFeed) (es : List FeedEntry) : RssFeed :=
  es.foldl (fun g e => g.add_entry maxE e) f

/-! ## Store operations (`FeedStorage`), modelled on an association list
in insertion order (Python dicts preserve insertion order) -/

/-- `self.feeds[feed.feed_id] = feed`: replace in place if the key exists,
else append. -/
def add_feed (store : List (String × RssFeed)) (f : RssFeed) : List (String × RssFeed) :=
  if store.any (fun p => p.1 == f.feed_id) then
    store.map (fun p => if p.1 == f.feed_id then (p.1, f) else p)
  else store ++ [(f.feed_id, f)]

def get_feed (store : List (String × RssFeed)) (fid : String) : Option RssFeed :=
  match store.find? (fun p => p.1 == fid) with
  | some p => some p.2
  | none => none

def delete_feed (store : List (String × RssFeed)) (fid : String) :
    List (String × RssFeed) × Bool :=
  if store.any (fun p => p.1 == fid) then
    (store.filter (fun p => !(p.1 == fid)), true)
  else (store, false)

/-- `FeedStorage.add_entry_to_feed`: mutate the resolved feed in place;
returns whether the feed existed. -/
def add_entry_to_feed (maxE : Nat) (store : List (String × RssFeed)) (fid : String)
    (e : FeedEntry) : List (String × RssFeed) × Bool :=
  match get_feed store fid with
  | none => (store, false)
  | some _ =>
    (store.map (fun p => if p.1 == fid then (p.1, p.2.add_entry maxE e) else p), true)

/-! ## Retention sweep (`FeedStorage._cleanup_old_entries`, one iteration) -/

/-- The per-feed list comprehension of the sweep: keep entries whose
parsed date is strictly after the cutoff.  `none` models the `TypeError`
raised when an offset-aware parse meets the offset-naive cutoff. -/
def keepEntries (now cutoff : Int) : List FeedEntry → Option (List FeedEntry)
  | [] => some []
  | e :: es =>
    match pyGt (parse_date now e.pub_date) ⟨cutoff, none⟩ with
    | none => none
    | some b =>
      match keepEntries now cutoff es with
      | none => none
      | some l => some (if b then e :: l else l)

/-- The feed loop of one sweep iteration.  Returns the feed list after the
iteration, whether any feed shrank before the iteration stopped, and
whether the iteration completed without raising.  On an exception the
current feed and all later feeds are left untouched. -/
def sweepFeeds (now cutoff : Int) : List RssFeed → List RssFeed × Bool × Bool
  | [] => ([], false, true)
  | f :: rest =>
    match keepEntries now cutoff f.entries with
    | none => (f :: rest, false, false)
    | some kept =>
      let r := sweepFeeds now cutoff rest
      ({ f with entries := kept } :: r.1,
       r.2.1 || decide (kept.length < f.entries.length),
       r.2.2)

/-- One iteration of `_cleanup_old_entries`: compute the cutoff
`now - timedelta(days=HISTORY_DAYS)`, sweep every feed, and call `save`
only when the loop completed and some feed changed.  The result is the
new feed list, whether `save` ran, and whether the iteration completed
(on `false`, the `except` branch logs and retries after an hour). -/
def cleanupIteration (histDays : Nat) (now : Int) (feeds : List RssFeed) :
    List RssFeed × Bool × Bool :=
  let cutoff : Int := now - 86400 * (histDays : Int)
  let r := sweepFeeds now cutoff feeds
  (r.1, r.2.2 && r.2.1, r.2.2)

/-! ## Query filter (`FeedStorage.filter_feeds`) -/

/-- The query parameters read by `filter_feeds` (each the raw query string
when present). -/
structure QueryParams where
  title : Option String
  description : Option String
  from_date : Option String
  to_date : Option String
  limit : Option String
  include_empty : Option String
deriving DecidableEq, Repr

def QueryParams.empty : QueryParams := ⟨none, none, none, none, none, none⟩

/-- `query_params.get('include_empty', 'false').lower() == 'true'`. -/
def includeEmptyFlag (qp : QueryParams) : Bool :=
  (match qp.include_empty with
   | none => "false"
   | some s => s).toLower == "true"

/-- A list comprehension whose predicate can raise: `none` models the
exception (here, `TypeError` on naive/aware comparison). -/
def filterCmp (p : FeedEntry → Option Bool) : List FeedEntry → Except Unit (List FeedEntry)
  | [] => Except.ok []
  | e :: es =>
    match p e with
    | none => Except.error ()
    | some b =>
      match filterCmp p es with
      | Except.error u => Except.error u
      | Except.ok l => Except.ok (if b then e :: l else l)

/-- The `from_date` block: a `ValueError` from `fromisoformat` is caught
and the criterion ignored; a comparison `TypeError` propagates. -/
def fromDateStep (now : Int) (p : Option String) (es : List FeedEntry) :
    Except Unit (List FeedEntry) :=
  match p with
  | none => Except.ok es
  | some s =>
    match fromisoformat s with
    | none => Except.ok es
    | some d => filterCmp (fun e => pyGe (parse_date now e.pub_date) d) es

/-- The `to_date` block, same structure with an upper bound. -/
def toDateStep (now : Int) (p : Option String) (es : List FeedEntry) :
    Except Unit (List FeedEntry) :=
  match p with
  | none => Except.ok es
  | some s =>
    match fromisoformat s with
    | none => Except.ok es
    | some d => filterCmp (fun e => pyLe (parse_date now e.pub_date) d) es

/-- The `title` block: case-insensitive substring filter on entry
titles. -/
def titleStep (p : Option String) (es : List FeedEntry) : List FeedEntry :=
  match p with
  | none => es
  | some t => es.filter (fun e => pyIn t.toLower e.title.toLower)

/-- The `description` block. -/
def descStep (p : Option String) (es : List FeedEntry) : List FeedEntry :=
  match p with
  | none => es
  | some q => es.filter (fun e => pyIn q.toLower e.description.toLower)

/-- The `limit` block: an unparsable limit is ignored; otherwise the
Python slice `[:limit]`. -/
def limitStep (p : Option String) (es : List FeedEntry) : List FeedEntry :=
  match p with
  | none => es
  | some s =>
    match pyInt s with
    | none => es
    | some n => pySlice es n

/-- The per-feed body of `filter_feeds`: the five criteria in source
order, producing the `feed_copy` (same metadata, filtered entries). -/
def filterOne (now : Int) (qp : QueryParams) (feed : RssFeed) : Except Unit RssFeed :=
  match fromDateStep now qp.from_date (descStep qp.description (titleStep qp.title feed.entries)) with
  | Except.error u => Except.error u
  | Except.ok es3 =>
    match toDateStep now qp.to_date es3 with
    | Except.error u => Except.error u
    | Except.ok es4 => Except.ok { feed with entries := limitStep qp.limit es4 }

/-- `FeedStorage.filter_feeds`: filter every feed, keeping a result feed
only when it has surviving entries or `include_empty` is `'true'`.  An
exception while filtering one feed aborts the whole call. -/
def filter_feeds (now : Int) (qp : QueryParams) : List RssFeed → Except Unit (List RssFeed)
  | [] => Except.ok []
  | f :: fs =>
    match filterOne now qp f with
    | Except.error u => Except.error u
    | Except.ok g =>
      match filter_feeds now qp fs with
      | Except.error u => Except.error u
      | Except.ok rest =>
        Except.ok (if !g.entries.isEmpty || includeEmptyFlag qp then g :: rest else rest)

/-! ## Aggregate construction (`get_all_feeds_xml`, `search_feeds` xml) -/

/-- The copied entry of the aggregate loops: the source feed's title in
brackets before the entry's own title; other fields unchanged. -/
def bracketCopy (feedTitle : String) (e : FeedEntry) : FeedEntry :=
  { e with title := "[" ++ feedTitle ++ "] " ++ e.title }

/-- All copied entries of a feed list, in iteration order. -/
def flatCopies (fs : List RssFeed) : List FeedEntry :=
  fs.flatMap (fun f => f.entries.map (bracketCopy f.title))

/-- One feed's inner loop of the aggregate construction: each copy is
added with `combined_feed.add_entry`, i.e. prepended with truncation at
`maxE`. -/
def combineStep (maxE : Nat) (acc : List FeedEntry) (f : RssFeed) : List FeedEntry :=
  f.entries.foldl (fun a e => consTrunc maxE (bracketCopy f.title e) a) acc

/-- The combined entry list of the synthetic aggregate feed, before any
sorting. -/
def combineAll (maxE : Nat) (fs : List RssFeed) : List FeedEntry :=
  fs.foldl (combineStep maxE) []

/-- Insert into a descending-sorted accumulator: the new element goes in
front of the first strictly-smaller key.  `none` models the `TypeError`
of a naive/aware key comparison inside `list.sort`. -/
def insDesc (now : Int) (e : FeedEntry) : List FeedEntry → Option (List FeedEntry)
  | [] => some [e]
  | x :: xs =>
    match pyLt (parse_date now x.pub_date) (parse_date now e.pub_date) with
    | none => none
    | some true => some (e :: x :: xs)
    | some false =>
      match insDesc now e xs with
      | none => none
      | some l => some (x :: l)

/-- `entries.sort(key=..., reverse=True)` modelled as a stable insertion
sort, descending by parsed publication date: same result as Python's
stable sort whenever the keys are mutually comparable, and an error
exactly when offset-naive and offset-aware keys mix. -/
def sortDescGo (now : Int) (acc : List FeedEntry) : List FeedEntry → Option (List FeedEntry)
  | [] => some acc
  | e :: l =>
    match insDesc now e acc with
    | none => none
    | some acc2 => sortDescGo now acc2 l

def sortDesc (now : Int) (l : List FeedEntry) : Option (List FeedEntry) :=
  sortDescGo now [] l

/-- The item list of the `/feeds/xml` document: combine every entry of
every stored feed, then sort by parsed date, descending. -/
def allFeedsXmlEntries (now : Int) (maxE : Nat) (feeds : List RssFeed) :
    Option (List FeedEntry) :=
  sortDesc now (combineAll maxE feeds)

/-- The item list of the `/feeds/search` xml document: combine the entries
of the filtered feeds; no sort is applied on this path. -/
def searchXmlEntries (now : Int) (maxE : Nat) (qp : QueryParams) (feeds : List RssFeed) :
    Except Unit (List FeedEntry) :=
  match filter_feeds now qp feeds with
  | Except.error u => Except.error u
  | Except.ok fs => Except.ok (combineAll maxE fs)

/-! ## Serialization (`to_dict` / `from_dict`, `save` / `load`) -/

/-- The dict produced by `FeedEntry.to_dict` and consumed by
`FeedEntry.from_dict`; a missing key is `none`. -/
structure EntryDict where
  title : Option String
  link : Option String
  description : Option String
  pubDate : Option String
  guid : Option String
  imageUrl : Option String
deriving DecidableEq, Repr

structure FeedDict where
  feedId : Option String
  title : Option String
  link : Option String
  description : Option String
  language : Option String
  imageUrl : Option String
  entries : Option (List EntryDict)
deriving DecidableEq, Repr

def FeedEntry.to_dict (e : FeedEntry) : EntryDict :=
  { title := some e.title, link := some e.link, description := some e.description
    pubDate := some e.pub_date, guid := some e.guid, imageUrl := e.image_url }

/-- `FeedEntry.from_dict`: required keys raise `KeyError` when absent
(`Except.error`); `guid`/`imageUrl` are read with `.get`.  The
constructor's `guid or str(uuid.uuid4())` is `fresh` on a missing or empty
guid. -/
def FeedEntry.from_dict (fresh : String) (d : EntryDict) : Except Unit FeedEntry :=
  match d.title, d.link, d.description, d.pubDate with
  | some t, some l, some de, some p =>
    Except.ok (FeedEntry.init t l de p d.guid d.imageUrl fresh)
  | _, _, _, _ => Except.error ()

def RssFeed.to_dict (f : RssFeed) : FeedDict :=
  { feedId := some f.feed_id, title := some f.title, link := some f.link
    description := some f.description, language := some f.language
    imageUrl := f.image_url, entries := some (f.entries.map FeedEntry.to_dict) }

def entriesFromDicts (fresh : String) : List EntryDict → Except Unit (List FeedEntry)
  | [] => Except.ok []
  | d :: ds =>
    match FeedEntry.from_dict fresh d with
    | Except.error u => Except.error u
    | Except.ok e =>
      match entriesFromDicts fresh ds with
      | Except.error u => Except.error u
      | Except.ok es => Except.ok (e :: es)

/-- `RssFeed.from_dict`: required `title`/`link`/`description`;
`language` defaults to `en-US`; `feedId` passes through
`feed_id or str(uuid.uuid4())`; entries from `data.get("entries", [])`. -/
def RssFeed.from_dict (fresh : String) (d : FeedDict) : Except Unit RssFeed :=
  match d.title, d.link, d.description with
  | some t, some l, some de =>
    (match entriesFromDicts fresh (match d.entries with | none => [] | some es => es) with
     | Except.error u => Except.error u
     | Except.ok es =>
       Except.ok
         { title := t, link := l, description := de
           language := match d.language with | none => "en-US" | some lg => lg
           feed_id := match d.feedId with
                      | none => fresh
                      | some i => if i = "" then fresh else i
           entries := es
           image_url := d.imageUrl })
  | _, _, _ => Except.error ()

/-- `FeedStorage.save`: the persisted document, a mapping from feed id to
feed dict. -/
def saveStore (store : List (String × RssFeed)) : List (String × FeedDict) :=
  store.map (fun p => (p.1, p.2.to_dict))

def loadPairs (fresh : String) : List (String × FeedDict) → Except Unit (List (String × RssFeed))
  | [] => Except.ok []
  | (fid, fd) :: rest =>
    match RssFeed.from_dict fresh fd with
    | Except.error u => Except.error u
    | Except.ok f =>
      match loadPairs fresh rest with
      | Except.error u => Except.error u
      | Except.ok r => Except.ok ((fid, f) :: r)

/-- `FeedStorage.load`: build the whole mapping inside one `try`; any
exception while converting any record degrades the entire store to the
empty mapping. -/
def loadStore (fresh : String) (data : List (String × FeedDict)) : List (String × RssFeed) :=
  match loadPairs fresh data with
  | Except.ok s => s
  | Except.error _ => []

/-! ## List lemmas for the bounded prepend -/

theorem consTrunc_eq_take (maxE : Nat) (e : FeedEntry) (l : List FeedEntry) :
    consTrunc maxE e l = (e :: l).take maxE := by
  unfold consTrunc
  by_cases h : (e :: l).length > maxE
  · simp [h]
  · simp only [h, if_false]
    exact (List.take_of_length_le (by omega)).symm

theorem add_entry_entries (f : RssFeed) (maxE : Nat) (e : FeedEntry) :
    (f.add_entry maxE e).entries = (e :: f.entries).take maxE := by
  simp [RssFeed.add_entry, consTrunc_eq_take]

theorem take_append_take {α : Type} (n : Nat) (a b : List α) :
    (a ++ b.take n).take n = (a ++ b).take n := by
  rw [List.take_append_eq_append_take, List.take_append_eq_append_take, List.take_take]
  have h : min (n - a.length) n = n - a.length := by omega
  rw [h]

theorem appendAll_entries (maxE : Nat) (es : List FeedEntry) :
    ∀ f : RssFeed, f.entries.length ≤ maxE →
      (appendAll maxE f es).entries = (es.reverse ++ f.entries).take maxE := by
  induction es with
  | nil =>
    intro f h
    simpa [appendAll] using (List.take_of_length_le h).symm
  | cons e es ih =>
    intro f h
    show (appendAll maxE (f.add_entry maxE e) es).entries = _
    rw [ih (f.add_entry maxE e)
        (by rw [add_entry_entries]; simp),
      add_entry_entries]
    rw [take_append_take]
    simp

/-- Concrete sample data for the C1 witness. -/
def c1e1 : FeedEntry := ⟨"first", "l1", "d1", "Mon, 01 Jan 2024 00:00:00 GMT", "g1", none⟩

def c1e2 : FeedEntry := ⟨"second", "l2", "d2", "Tue, 02 Jan 2024 00:00:00 GMT", "g2", none⟩

def c1f0 : RssFeed := ⟨"F", "l", "d", "en-US", "fid", [], none⟩

/-- C1: after any single append the entry count is at most
`MAX_ENTRIES_PER_FEED` and the appended entry sits at position 0; after
any append sequence from an empty feed the surviving entries are exactly
the most recently appended ones, newest first, truncation dropping from
the tail. -/
theorem c1_bounded_prepend (maxE : Nat) (hm : 0 < maxE) (f : RssFeed) (e : FeedEntry)
    (f0 : RssFeed) (h0 : f0.entries = []) (es : List FeedEntry) :
    (f.add_entry maxE e).entries.length ≤ maxE ∧
    (f.add_entry maxE e).entries.head? = some e ∧
    (appendAll maxE f0 es).entries = es.reverse.take maxE := by
  refine ⟨?_, ?_, ?_⟩
  · rw [add_entry_entries, List.length_take]
    omega
  · rw [add_entry_entries]
    obtain ⟨m, rfl⟩ : ∃ m, maxE = m + 1 := ⟨maxE - 1, by omega⟩
    simp [List.take_succ_cons]
  · rw [appendAll_entries maxE es f0 (by simp [h0]), h0]
    simp

/-- Witness for C1 at `MAX_ENTRIES_PER_FEED = 100` and a two-append
sequence. -/
theorem c1_bounded_prepend_witness :
    0 < 100 ∧ c1f0.entries = [] ∧
    ((c1f0.add_entry 100 c1e1).entries.length ≤ 100 ∧
     (c1f0.add_entry 100 c1e1).entries.head? = some c1e1 ∧
     (appendAll 100 c1f0 [c1e1, c1e2]).entries = [c1e1, c1e2].reverse.take 100) :=
  ⟨by decide, rfl, c1_bounded_prepend 100 (by decide) c1f0 c1e1 c1f0 rfl [c1e1, c1e2]⟩

/-! ## Lemmas about the aggregate combination -/

theorem consTrunc_of_le (maxE : Nat) (e : FeedEntry) (l : List FeedEntry)
    (h : (e :: l).length ≤ maxE) : consTrunc maxE e l = e :: l := by
  have h2 : l.length + 1 ≤ maxE := by simpa using h
  simp only [consTrunc, List.length_cons, gt_iff_lt]
  rw [if_neg (by omega)]

theorem foldTrunc_of_le (maxE : Nat) (l : List FeedEntry) :
    ∀ acc : List FeedEntry, l.length + acc.length ≤ maxE →
      l.foldl (fun a e => consTrunc maxE e a) acc = l.reverse ++ acc := by
  induction l with
  | nil => intro acc _; simp
  | cons e l ih =>
    intro acc h
    have hc : consTrunc maxE e acc = e :: acc :=
      consTrunc_of_le maxE e acc (by simp at h ⊢; omega)
    show List.foldl _ (consTrunc maxE e acc) l = _
    rw [hc, ih (e :: acc) (by simp at h ⊢; omega)]
    simp

theorem combineStep_of_le (maxE : Nat) (acc : List FeedEntry) (f : RssFeed)
    (h : (f.entries.map (bracketCopy f.title)).length + acc.length ≤ maxE) :
    combineStep maxE acc f = (f.entries.map (bracketCopy f.title)).reverse ++ acc := by
  unfold combineStep
  rw [← List.foldl_map (bracketCopy f.title) (fun a e => consTrunc maxE e a)]
  exact foldTrunc_of_le maxE _ acc h

theorem flatCopies_cons (f : RssFeed) (fs : List RssFeed) :
    flatCopies (f :: fs) = f.entries.map (bracketCopy f.title) ++ flatCopies fs := by
  simp [flatCopies]

theorem combineFold_of_le (maxE : Nat) (fs : List RssFeed) :
    ∀ acc : List FeedEntry, (flatCopies fs).length + acc.length ≤ maxE →
      fs.foldl (combineStep maxE) acc = (flatCopies fs).reverse ++ acc := by
  induction fs with
  | nil => intro acc _; simp [flatCopies]
  | cons f fs ih =>
    intro acc h
    rw [flatCopies_cons] at h ⊢
    have hlen : (f.entries.map (bracketCopy f.title)).length + acc.length ≤ maxE := by
      simp at h ⊢; omega
    show List.foldl _ (combineStep maxE acc f) fs = _
    rw [combineStep_of_le maxE acc f hlen,
      ih _ (by simp at h ⊢; omega)]
    simp

/-- C5 (amended): when the total number of entries across the stored
feeds fits inside `MAX_ENTRIES_PER_FEED`, the combined entry list of the
aggregate document is exactly the reversal of all bracket-titled copies,
so each entry's copy appears exactly once. -/
theorem c5_all_copies (maxE : Nat) (fs : List RssFeed)
    (h : (flatCopies fs).length ≤ maxE) :
    combineAll maxE fs = (flatCopies fs).reverse ∧
    ∀ e : FeedEntry, (combineAll maxE fs).count e = (flatCopies fs).count e := by
  have hc : combineAll maxE fs = (flatCopies fs).reverse := by
    unfold combineAll
    rw [combineFold_of_le maxE fs [] (by simpa using h)]
    simp
  exact ⟨hc, fun e => by rw [hc]; exact ((flatCopies fs).reverse_perm).count_eq e⟩

def c5feedA : RssFeed :=
  ⟨"Feed A", "la", "da", "en-US", "fa",
    [⟨"a1", "l", "d", "Mon, 01 Jan 2024 00:00:00 GMT", "ga", none⟩], none⟩

def c5feedB : RssFeed :=
  ⟨"Feed B", "lb", "db", "en-US", "fb",
    [⟨"b1", "l", "d", "Sat, 01 Jun 2024 00:00:00 GMT", "gb", none⟩], none⟩

/-- Witness for the amended C5 on a concrete two-feed store. -/
theorem c5_all_copies_witness :
    (flatCopies [c5feedA, c5feedB]).length ≤ 100 ∧
    (combineAll 100 [c5feedA, c5feedB] = (flatCopies [c5feedA, c5feedB]).reverse ∧
     ∀ e : FeedEntry,
       (combineAll 100 [c5feedA, c5feedB]).count e = (flatCopies [c5feedA, c5feedB]).count e) :=
  ⟨by decide, c5_all_copies 100 [c5feedA, c5feedB] (by decide)⟩

def c5entry (i : Nat) : FeedEntry := ⟨"e" ++ toString i, "l", "d", "p", "g" ++ toString i, none⟩

/-- A feed holding 101 entries (one more than the default bound). -/
def c5big : RssFeed := ⟨"Big", "l", "d", "en-US", "big", (List.range 101).map c5entry, none⟩

set_option maxRecDepth 40000 in
set_option maxHeartbeats 2000000 in
/-- Counterexample to C5 as stated: with 101 entries in the store, the
copy of the first-iterated entry does not appear in the combined entry
set at all — `combined_feed.add_entry` truncates the aggregate at
`MAX_ENTRIES_PER_FEED`, so not every entry is copied regardless of the
total. -/
theorem c5_truncation_cex :
    bracketCopy c5big.title (c5entry 0) ∈ flatCopies [c5big] ∧
    (combineAll MAX_ENTRIES_PER_FEED [c5big]).count (bracketCopy c5big.title (c5entry 0)) = 0 ∧
    (flatCopies [c5big]).length = 101 ∧
    (combineAll MAX_ENTRIES_PER_FEED [c5big]).length = 100 := by decide

/-! ## Guid uniqueness (C8) -/

/-- C8 (amended): the store itself never checks guid uniqueness; it is
preserved by an append exactly when the appended guid is not already
present (as with a fresh generated uuid). -/
theorem c8_guid_nodup_preserved (maxE : Nat) (f : RssFeed) (e : FeedEntry)
    (hnd : (f.entries.map FeedEntry.guid).Nodup)
    (hnew : e.guid ∉ f.entries.map FeedEntry.guid) :
    ((f.add_entry maxE e).entries.map FeedEntry.guid).Nodup := by
  rw [add_entry_entries, List.map_take]
  exact List.Nodup.sublist (List.take_sublist _ _) (List.nodup_cons.2 ⟨hnew, hnd⟩)

def c8e1 : FeedEntry := ⟨"a", "l", "d", "Mon, 01 Jan 2024 00:00:00 GMT", "x", none⟩

def c8e2 : FeedEntry := ⟨"b", "l", "d", "Tue, 02 Jan 2024 00:00:00 GMT", "x", none⟩

def c8feed : RssFeed := ⟨"F", "l", "d", "en-US", "c8fid", [], none⟩

/-- Witness for the amended C8. -/
theorem c8_guid_nodup_preserved_witness :
    (c8feed.entries.map FeedEntry.guid).Nodup ∧
    c8e1.guid ∉ c8feed.entries.map FeedEntry.guid ∧
    ((c8feed.add_entry 100 c8e1).entries.map FeedEntry.guid).Nodup :=
  ⟨by decide, by decide, c8_guid_nodup_preserved 100 c8feed c8e1 (by decide) (by decide)⟩

/-- Counterexample to C8 as stated: a store state reached by creating a
feed and appending two caller-supplied entries with the same guid ends
with the owning feed holding guid `x` twice — the second insertion went
through although its guid was already present. -/
theorem c8_duplicate_guid_cex :
    c8e1.guid = "x" ∧ c8e2.guid = "x" ∧ c8e1 ≠ c8e2 ∧
    ((add_entry_to_feed 100
        (add_entry_to_feed 100 (add_feed [] c8feed) "c8fid" c8e1).1
        "c8fid" c8e2).1.map (fun p => p.2.entries.map FeedEntry.guid)) = [["x", "x"]] := by
  decide

/-! ## Serialization round-trip (C9) and load degradation (C10) -/

theorem entry_roundtrip (fresh : String) (e : FeedEntry) (h : e.guid ≠ "") :
    FeedEntry.from_dict fresh e.to_dict = Except.ok e := by
  cases e with
  | mk t l d p g i =>
    simp only [FeedEntry.to_dict, FeedEntry.from_dict, FeedEntry.init]
    simp at h
    simp [h]

theorem entries_roundtrip (fresh : String) (l : List FeedEntry)
    (h : ∀ e ∈ l, e.guid ≠ "") :
    entriesFromDicts fresh (l.map FeedEntry.to_dict) = Except.ok l := by
  induction l with
  | nil => rfl
  | cons e l ih =>
    simp only [List.map_cons, entriesFromDicts]
    rw [entry_roundtrip fresh e (h e (by simp)), ih (fun x hx => h x (by simp [hx]))]

theorem feed_roundtrip (fresh : String) (f : RssFeed) (hf : f.feed_id ≠ "")
    (he : ∀ e ∈ f.entries, e.guid ≠ "") :
    RssFeed.from_dict fresh f.to_dict = Except.ok f := by
  cases f with
  | mk t l d lang fid es img =>
    simp only [RssFeed.to_dict, RssFeed.from_dict]
    rw [entries_roundtrip fresh es he]
    simp at hf
    simp [hf]

theorem loadPairs_save (fresh : String) :
    ∀ store : List (String × RssFeed),
      (∀ p ∈ store, p.2.feed_id ≠ "" ∧ ∀ e ∈ p.2.entries, e.guid ≠ "") →
      loadPairs fresh (saveStore store) = Except.ok store := by
  intro store
  induction store with
  | nil => intro _; rfl
  | cons p rest ih =>
    intro h
    obtain ⟨fid, f⟩ := p
    have hp := h (fid, f) (by simp)
    simp only [saveStore, List.map_cons, loadPairs]
    rw [feed_roundtrip fresh f hp.1 hp.2]
    have : loadPairs fresh (saveStore rest) = Except.ok rest :=
      ih (fun q hq => h q (by simp [hq]))
    simpa [saveStore] using this ▸ rfl

/-- C9: saving the store's mapping and loading it back is the identity —
for every store whose feeds carry the nonempty ids and guids that the
constructors guarantee, the reloaded mapping equals the original in
every field and entry order. -/
theorem c9_save_load_roundtrip (fresh : String) (store : List (String × RssFeed))
    (h : ∀ p ∈ store, p.2.feed_id ≠ "" ∧ ∀ e ∈ p.2.entries, e.guid ≠ "") :
    loadStore fresh (saveStore store) = store := by
  simp [loadStore, loadPairs_save fresh store h]

def c9store : List (String × RssFeed) :=
  [("fa", c5feedA), ("fb", c5feedB)]

/-- Witness for C9 on a concrete two-feed store. -/
theorem c9_save_load_roundtrip_witness :
    (∀ p ∈ c9store, p.2.feed_id ≠ "" ∧ ∀ e ∈ p.2.entries, e.guid ≠ "") ∧
    loadStore "00000000-fresh" (saveStore c9store) = c9store :=
  ⟨by decide, c9_save_load_roundtrip "00000000-fresh" c9store (by decide)⟩

theorem loadPairs_error (fresh : String) :
    ∀ (data : List (String × FeedDict)) (fid : String) (fd : FeedDict),
      (fid, fd) ∈ data → RssFeed.from_dict fresh fd = Except.error () →
      loadPairs fresh data = Except.error () := by
  intro data
  induction data with
  | nil => intro fid fd hmem; cases hmem
  | cons q rest ih =>
    intro fid fd hmem hbad
    obtain ⟨qid, qd⟩ := q
    rcases List.mem_cons.1 hmem with heq | hrest
    · cases heq
      simp [loadPairs, hbad]
    · simp only [loadPairs]
      cases hq : RssFeed.from_dict fresh qd with
      | error u => cases u; rfl
      | ok g => rw [ih fid fd hrest hbad]

/-- C10: one malformed feed record (a missing required key in the feed or
any of its entries) makes `load` degrade the whole store to the empty
mapping; every well-formed record in the same file is dropped too. -/
theorem c10_load_degrades_whole_store (fresh : String) (data : List (String × FeedDict))
    (fid : String) (fd : FeedDict) (hmem : (fid, fd) ∈ data)
    (hbad : RssFeed.from_dict fresh fd = Except.error ()) :
    loadStore fresh data = [] := by
  simp [loadStore, loadPairs_error fresh data fid fd hmem hbad]

/-- A well-formed record next to a record whose entry lacks `pubDate`. -/
def c10good : FeedDict := c5feedA.to_dict

def c10bad : FeedDict :=
  { feedId := some "fx", title := some "X", link := some "lx", description := some "dx"
    language := some "en-US", imageUrl := none
    entries := some [{ title := some "e", link := some "l", description := some "d"
                       pubDate := none, guid := none, imageUrl := none }] }

/-- Witness for C10: the good record is lost along with the bad one. -/
theorem c10_load_degrades_whole_store_witness :
    ("fx", c10bad) ∈ [("fa", c10good), ("fx", c10bad)] ∧
    RssFeed.from_dict "fresh" c10bad = Except.error () ∧
    loadStore "fresh" [("fa", c10good), ("fx", c10bad)] = [] :=
  ⟨by decide, by rfl,
    c10_load_degrades_whole_store "fresh" [("fa", c10good), ("fx", c10bad)] "fx" c10bad
      (by decide) (by rfl)⟩

/-! ## Retention sweep (C2) and normalizer (C3) -/

def c2now : Int := civilSec 2026 10 12 0 0 0

/-- An entry whose date parses through the ISO `%z` format, hence
offset-aware, and which is far older than any 30-day cutoff. -/
def c2aware : FeedEntry := ⟨"iso", "l", "d", "2020-01-01T00:00:00+0000", "gA", none⟩

def c2feedAware : RssFeed := ⟨"FA", "l", "d", "en-US", "fa2", [c2aware], none⟩

def c2old : FeedEntry := ⟨"old", "l", "d", "Wed, 02 Sep 2026 00:00:00 GMT", "gO", none⟩

def c2new : FeedEntry := ⟨"new", "l", "d", "Fri, 02 Oct 2026 00:00:00 GMT", "gN", none⟩

def c2feedRfc : RssFeed := ⟨"FR", "l", "d", "en-US", "fr2", [c2new, c2old], none⟩

def c2feedFresh : RssFeed := ⟨"FF", "l", "d", "en-US", "ff2", [c2new], none⟩

/-- C2, evaluated at the failing input: the entry dated
`2020-01-01T00:00:00+0000` normalizes to an offset-aware instant far
before `now - 30 days` (conjuncts 1 and 2), yet one sweep iteration over
a store holding it removes nothing, persists nothing and aborts with the
comparison `TypeError` (conjunct 3).  On offset-naive dates the sweep
behaves as the claim says: the 40-day-old entry is removed, the
10-day-old entry is retained, and the batch is persisted exactly once
because something changed (conjunct 4); with no change nothing is
persisted (conjunct 5). -/
theorem c2_sweep_at_failing_input :
    parse_date c2now c2aware.pub_date = ⟨civilSec 2020 1 1 0 0 0, some 0⟩ ∧
    civilSec 2020 1 1 0 0 0 - 0 ≤ c2now - 86400 * 30 ∧
    cleanupIteration 30 c2now [c2feedAware] = ([c2feedAware], false, false) ∧
    cleanupIteration 30 c2now [c2feedRfc] =
      ([{ c2feedRfc with entries := [c2new] }], true, true) ∧
    cleanupIteration 30 c2now [c2feedFresh] = ([c2feedFresh], false, true) := by
  refine ⟨by rfl, by decide, by decide, by decide, by decide⟩

/-- C3: the normalizer tries its five formats in source order and returns
the first successful parse (conjunct 1, the full cascade); an input
matching no format yields the current wall clock instead of an error
(conjunct 2); and when an input matches several formats the earlier one
wins — `2024-01-01T00:00:00Z` matches both ISO formats with different
results and the `%z` one is returned (conjunct 3).  Totality of
`parse_date` is the never-fails half of the claim. -/
theorem c3_normalizer_first_match_or_now :
    (∀ (now : Int) (s : String),
      parse_date now s =
        match strptime Fmt.rfcZ s with
        | some d => d
        | none =>
          match strptime Fmt.rfcGMT s with
          | some d => d
          | none =>
            match strptime Fmt.rfcPlus s with
            | some d => d
            | none =>
              match strptime Fmt.isoOff s with
              | some d => d
              | none =>
                match strptime Fmt.isoZ s with
                | some d => d
                | none => ⟨now, none⟩) ∧
    (∀ now : Int, parse_date now "not a real date" = ⟨now, none⟩) ∧
    strptime Fmt.isoOff "2024-01-01T00:00:00Z" = some ⟨civilSec 2024 1 1 0 0 0, some 0⟩ ∧
    strptime Fmt.isoZ "2024-01-01T00:00:00Z" = some ⟨civilSec 2024 1 1 0 0 0, none⟩ ∧
    (∀ now : Int, parse_date now "2024-01-01T00:00:00Z" = ⟨civilSec 2024 1 1 0 0 0, some 0⟩) := by
  refine ⟨?_, fun now => rfl, rfl, rfl, fun now => rfl⟩
  intro now s
  simp only [parse_date, formats, List.findSome?_cons, List.findSome?_nil]
  cases strptime Fmt.rfcZ s <;> cases strptime Fmt.rfcGMT s <;>
    cases strptime Fmt.rfcPlus s <;> cases strptime Fmt.isoOff s <;>
    cases strptime Fmt.isoZ s <;> rfl

/-! ## The query-filter claims (C6, C7) -/

/-- Criteria in the spec's terms: parsed date bounds and a parsed
numeric limit. -/
structure SpecCriteria where
  titleQ : Option String
  descQ : Option String
  fromD : Option Int
  toD : Option Int
  limitN : Option Int

/-- The parsed value of a date-bound criterion: `none` when the criterion
is absent or unparsable (then it is ignored). -/
def parsedBound (p : Option String) : Option Int :=
  match p with
  | none => none
  | some s =>
    match fromisoformat s with
    | none => none
    | some d => some d.sec

/-- Modelled from the spec: `fromDate` is an inclusive lower bound —
entries whose normalized publication date is below it are dropped. -/
def specFromStep (now : Int) (b : Option Int) (es : List FeedEntry) : List FeedEntry :=
  match b with
  | none => es
  | some d => es.filter (fun e => decide (d ≤ (parse_date now e.pub_date).sec))

/-- Modelled from the spec: `toDate` is an inclusive upper bound. -/
def specToStep (now : Int) (b : Option Int) (es : List FeedEntry) : List FeedEntry :=
  match b with
  | none => es
  | some d => es.filter (fun e => decide ((parse_date now e.pub_date).sec ≤ d))

/-- Modelled from the spec (amended): `limit` keeps the first `n`
remaining entries for a nonnegative parsed limit; a negative Python slice
bound keeps all but the last `|n|`. -/
def specLimitStep (n : Option Int) (es : List FeedEntry) : List FeedEntry :=
  match n with
  | none => es
  | some n => pySlice es n

/-- Modelled from the spec: the five criteria applied in the fixed order
title, description, fromDate, toDate, limit. -/
def specApply (now : Int) (c : SpecCriteria) (es : List FeedEntry) : List FeedEntry :=
  specLimitStep c.limitN
    (specToStep now c.toD
      (specFromStep now c.fromD
        (descStep c.descQ (titleStep c.titleQ es))))

/-- The criteria a query-parameter set denotes. -/
def toCriteria (qp : QueryParams) : SpecCriteria :=
  { titleQ := qp.title, descQ := qp.description
    fromD := parsedBound qp.from_date, toD := parsedBound qp.to_date
    limitN := match qp.limit with
              | none => none
              | some s => pyInt s }

theorem notDecideLt (a b : Int) : (!decide (a < b)) = decide (b ≤ a) := by
  rw [← decide_not]
  exact decide_eq_decide.2 (by omega)

theorem filterCmp_ok (p : FeedEntry → Option Bool) (q : FeedEntry → Bool) :
    ∀ l : List FeedEntry, (∀ e ∈ l, p e = some (q e)) →
      filterCmp p l = Except.ok (l.filter q) := by
  intro l
  induction l with
  | nil => intro _; rfl
  | cons e es ih =>
    intro h
    have he := h e (by simp)
    have hrest := ih (fun x hx => h x (by simp [hx]))
    cases hq : q e <;>
      simp only [filterCmp, he, hq, hrest, List.filter_cons]

theorem fromStage_eq (now : Int) (p : Option String) (es : List FeedEntry)
    (hes : ∀ e ∈ es, (parse_date now e.pub_date).off = none)
    (hb : ∀ s d, p = some s → fromisoformat s = some d → d.off = none) :
    fromDateStep now p es = Except.ok (specFromStep now (parsedBound p) es) := by
  cases p with
  | none => rfl
  | some s =>
    cases hiso : fromisoformat s with
    | none => simp [fromDateStep, specFromStep, parsedBound, hiso]
    | some d =>
      have hoff : d.off = none := hb s d rfl hiso
      simp only [fromDateStep, specFromStep, parsedBound, hiso]
      apply filterCmp_ok
      intro e he
      have h1 := hes e he
      simp only [pyGe, pyLt, h1, hoff]
      rw [notDecideLt]

theorem toStage_eq (now : Int) (p : Option String) (es : List FeedEntry)
    (hes : ∀ e ∈ es, (parse_date now e.pub_date).off = none)
    (hb : ∀ s d, p = some s → fromisoformat s = some d → d.off = none) :
    toDateStep now p es = Except.ok (specToStep now (parsedBound p) es) := by
  cases p with
  | none => rfl
  | some s =>
    cases hiso : fromisoformat s with
    | none => simp [toDateStep, specToStep, parsedBound, hiso]
    | some d =>
      have hoff : d.off = none := hb s d rfl hiso
      simp only [toDateStep, specToStep, parsedBound, hiso]
      apply filterCmp_ok
      intro e he
      have h1 := hes e he
      simp only [pyLe, pyGe, pyLt, h1, hoff]
      rw [notDecideLt]

theorem limit_steps_eq (p : Option String) (es : List FeedEntry) :
    specLimitStep (match p with | none => none | some s => pyInt s) es = limitStep p es := by
  cases p with
  | none => rfl
  | some s => cases h : pyInt s <;> simp [specLimitStep, limitStep, h]

theorem titleStep_subset (p : Option String) (es : List FeedEntry) :
    ∀ e ∈ titleStep p es, e ∈ es := by
  cases p with
  | none => intro e he; exact he
  | some t => intro e he; exact List.mem_of_mem_filter he

theorem descStep_subset (p : Option String) (es : List FeedEntry) :
    ∀ e ∈ descStep p es, e ∈ es := by
  cases p with
  | none => intro e he; exact he
  | some q => intro e he; exact List.mem_of_mem_filter he

theorem specFromStep_subset (now : Int) (b : Option Int) (es : List FeedEntry) :
    ∀ e ∈ specFromStep now b es, e ∈ es := by
  cases b with
  | none => intro e he; exact he
  | some d => intro e he; exact List.mem_of_mem_filter he

theorem filterOne_eq (now : Int) (qp : QueryParams) (feed : RssFeed)
    (es3 es4 : List FeedEntry)
    (h3 : fromDateStep now qp.from_date
      (descStep qp.description (titleStep qp.title feed.entries)) = Except.ok es3)
    (h4 : toDateStep now qp.to_date es3 = Except.ok es4) :
    filterOne now qp feed = Except.ok { feed with entries := limitStep qp.limit es4 } := by
  simp only [filterOne, h3, h4]

/-- C6 (amended): on a feed whose entry dates normalize to offset-naive
instants and date-bound criteria that parse to offset-naive instants, the
filter is exactly the spec pipeline — title substring, description
substring, inclusive `fromDate` lower bound, inclusive `toDate` upper
bound, then the `limit` slice — in that order (conjunct 1); the result is
a new feed with identical metadata (conjunct 2); and an unparsable
`fromDate`, `toDate` or `limit` criterion is ignored rather than raising
(conjuncts 3-5).  (Mixing offset-aware and offset-naive values instead
raises; see the counterexample.) -/
theorem c6_filter_refinement (now : Int) (qp : QueryParams) (feed : RssFeed)
    (hes : ∀ e ∈ feed.entries, (parse_date now e.pub_date).off = none)
    (hfrom : ∀ s d, qp.from_date = some s → fromisoformat s = some d → d.off = none)
    (hto : ∀ s d, qp.to_date = some s → fromisoformat s = some d → d.off = none) :
    filterOne now qp feed =
      Except.ok { feed with entries := specApply now (toCriteria qp) feed.entries } ∧
    (∀ g, filterOne now qp feed = Except.ok g →
      g.title = feed.title ∧ g.link = feed.link ∧ g.description = feed.description ∧
      g.language = feed.language ∧ g.feed_id = feed.feed_id ∧ g.image_url = feed.image_url) ∧
    (∀ s, qp.from_date = some s → fromisoformat s = none →
      filterOne now qp feed = filterOne now { qp with from_date := none } feed) ∧
    (∀ s, qp.to_date = some s → fromisoformat s = none →
      filterOne now qp feed = filterOne now { qp with to_date := none } feed) ∧
    (∀ s, qp.limit = some s → pyInt s = none →
      filterOne now qp feed = filterOne now { qp with limit := none } feed) := by
  have hes2 : ∀ e ∈ descStep qp.description (titleStep qp.title feed.entries),
      (parse_date now e.pub_date).off = none :=
    fun e he => hes e (titleStep_subset _ _ e (descStep_subset _ _ e he))
  have hes3 : ∀ e ∈ specFromStep now (parsedBound qp.from_date)
      (descStep qp.description (titleStep qp.title feed.entries)),
      (parse_date now e.pub_date).off = none :=
    fun e he => hes2 e (specFromStep_subset _ _ _ e he)
  have hmain : filterOne now qp feed =
      Except.ok { feed with entries := specApply now (toCriteria qp) feed.entries } := by
    rw [filterOne_eq now qp feed _ _
      (fromStage_eq now qp.from_date _ hes2 hfrom)
      (toStage_eq now qp.to_date _ hes3 hto)]
    simp only [specApply, toCriteria, limit_steps_eq]
  refine ⟨hmain, ?_, ?_, ?_, ?_⟩
  · intro g hg
    rw [hmain] at hg
    cases hg
    exact ⟨rfl, rfl, rfl, rfl, rfl, rfl⟩
  · intro s hs hbad
    simp only [filterOne, hs, fromDateStep, hbad]
  · intro s hs hbad
    simp only [filterOne, hs, toDateStep, hbad]
  · intro s hs hbad
    simp only [filterOne, hs, limitStep, hbad]

def c6cexFeed : RssFeed :=
  ⟨"F6x", "l", "d", "en-US", "f6x",
    [⟨"jan", "l", "d", "Mon, 01 Jan 2024 00:00:00 GMT", "g61", none⟩], none⟩

def c6cexQp : QueryParams :=
  { title := none, description := none, from_date := some "2024-06-01T00:00:00+00:00"
    to_date := none, limit := none, include_empty := none }

/-- Counterexample to C6 as stated: a parsable `fromDate` with an
explicit offset is offset-aware, the entry's normalized date is
offset-naive and below the bound, and instead of dropping the entry the
filter raises (`Except.error`), aborting the request. -/
theorem c6_aware_bound_cex :
    fromisoformat "2024-06-01T00:00:00+00:00" = some ⟨civilSec 2024 6 1 0 0 0, some 0⟩ ∧
    parse_date 0 "Mon, 01 Jan 2024 00:00:00 GMT" = ⟨civilSec 2024 1 1 0 0 0, none⟩ ∧
    civilSec 2024 1 1 0 0 0 < civilSec 2024 6 1 0 0 0 ∧
    filterOne 0 c6cexQp c6cexFeed = Except.error () :=
  ⟨rfl, rfl, by decide, rfl⟩

def c6wFeed : RssFeed :=
  ⟨"F6w", "l", "d", "en-US", "f6w",
    [⟨"Alpha news", "l", "d", "Sat, 01 Jun 2024 00:00:00 GMT", "g6a", none⟩,
     ⟨"Beta push", "l", "d", "Mon, 01 Jan 2024 00:00:00 GMT", "g6b", none⟩,
     ⟨"alphabet soup", "l", "d", "Mon, 01 Jul 2024 00:00:00 GMT", "g6c", none⟩], none⟩

def c6wQp : QueryParams :=
  { title := some "ALPHA", description := none
    from_date := some "2024-02-01T00:00:00", to_date := some "2024-06-30T00:00:00"
    limit := some "1", include_empty := none }

/-- Witness for the amended C6 with every criterion active. -/
theorem c6_filter_refinement_witness :
    (∀ e ∈ c6wFeed.entries, (parse_date 0 e.pub_date).off = none) ∧
    (∀ s d, c6wQp.from_date = some s → fromisoformat s = some d → d.off = none) ∧
    (∀ s d, c6wQp.to_date = some s → fromisoformat s = some d → d.off = none) ∧
    (filterOne 0 c6wQp c6wFeed =
        Except.ok { c6wFeed with entries := specApply 0 (toCriteria c6wQp) c6wFeed.entries } ∧
      (∀ g, filterOne 0 c6wQp c6wFeed = Except.ok g →
        g.title = c6wFeed.title ∧ g.link = c6wFeed.link ∧
        g.description = c6wFeed.description ∧ g.language = c6wFeed.language ∧
        g.feed_id = c6wFeed.feed_id ∧ g.image_url = c6wFeed.image_url) ∧
      (∀ s, c6wQp.from_date = some s → fromisoformat s = none →
        filterOne 0 c6wQp c6wFeed = filterOne 0 { c6wQp with from_date := none } c6wFeed) ∧
      (∀ s, c6wQp.to_date = some s → fromisoformat s = none →
        filterOne 0 c6wQp c6wFeed = filterOne 0 { c6wQp with to_date := none } c6wFeed) ∧
      (∀ s, c6wQp.limit = some s → pyInt s = none →
        filterOne 0 c6wQp c6wFeed = filterOne 0 { c6wQp with limit := none } c6wFeed)) :=
  have h1 : ∀ e ∈ c6wFeed.entries, (parse_date 0 e.pub_date).off = none := by decide
  have h2 : ∀ s d, c6wQp.from_date = some s → fromisoformat s = some d → d.off = none := by
    intro s d hs hd
    have hs2 : some "2024-02-01T00:00:00" = some s := hs
    cases hs2
    have hd2 : some (⟨civilSec 2024 2 1 0 0 0, none⟩ : PyDateTime) = some d := hd
    cases hd2
    rfl
  have h3 : ∀ s d, c6wQp.to_date = some s → fromisoformat s = some d → d.off = none := by
    intro s d hs hd
    have hs2 : some "2024-06-30T00:00:00" = some s := hs
    cases hs2
    have hd2 : some (⟨civilSec 2024 6 30 0 0 0, none⟩ : PyDateTime) = some d := hd
    cases hd2
    rfl
  ⟨h1, h2, h3, c6_filter_refinement 0 c6wQp c6wFeed h1 h2 h3⟩

/-- C7: when `filter_feeds` returns, a feed copy is in the result exactly
when it kept at least one entry or the `include_empty` flag was passed as
`'true'`; with the flag every stored feed appears. -/
theorem c7_filter_feeds_inclusion (now : Int) (qp : QueryParams) :
    ∀ (feeds res : List RssFeed), filter_feeds now qp feeds = Except.ok res →
      (∀ g ∈ res, (g.entries ≠ [] ∨ includeEmptyFlag qp = true) ∧
        ∃ f ∈ feeds, filterOne now qp f = Except.ok g) ∧
      (∀ f ∈ feeds, ∀ g, filterOne now qp f = Except.ok g →
        (g.entries ≠ [] ∨ includeEmptyFlag qp = true) → g ∈ res) ∧
      (includeEmptyFlag qp = true → res.length = feeds.length) := by
  intro feeds
  induction feeds with
  | nil =>
    intro res h
    have h2 : Except.ok ([] : List RssFeed) = Except.ok res := h
    cases h2
    exact ⟨fun g hg => absurd hg (by simp), fun f hf => absurd hf (by simp), fun _ => rfl⟩
  | cons f fs ih =>
    intro res h
    simp only [filter_feeds] at h
    cases hf : filterOne now qp f with
    | error u => rw [hf] at h; exact Except.noConfusion h
    | ok g =>
      rw [hf] at h
      cases hr : filter_feeds now qp fs with
      | error u => rw [hr] at h; exact Except.noConfusion h
      | ok rest =>
        rw [hr] at h
        have hres : (if !g.entries.isEmpty || includeEmptyFlag qp then g :: rest
            else rest) = res := by
          injection h
        obtain ⟨hA, hB, hC⟩ := ih rest hr
        have hcondiff : (!g.entries.isEmpty || includeEmptyFlag qp) = true ↔
            (g.entries ≠ [] ∨ includeEmptyFlag qp = true) := by
          simp [List.isEmpty_iff]
        by_cases hcond : (!g.entries.isEmpty || includeEmptyFlag qp) = true
        · rw [if_pos hcond] at hres
          subst hres
          refine ⟨?_, ?_, ?_⟩
          · intro g2 hg2
            rcases List.mem_cons.1 hg2 with rfl | hg2r
            · exact ⟨hcondiff.1 hcond, f, by simp, hf⟩
            · obtain ⟨hc, f2, hf2, hok⟩ := hA g2 hg2r
              exact ⟨hc, f2, by simp [hf2], hok⟩
          · intro f2 hf2 g2 hok2 hc2
            rcases List.mem_cons.1 hf2 with rfl | hf2r
            · have : Except.ok g = Except.ok g2 := hf.symm.trans hok2
              cases this
              exact List.mem_cons_self _ _
            · exact List.mem_cons_of_mem _ (hB f2 hf2r g2 hok2 hc2)
          · intro hflag
            simp [hC hflag]
        · rw [if_neg hcond] at hres
          subst hres
          refine ⟨?_, ?_, ?_⟩
          · intro g2 hg2
            obtain ⟨hc, f2, hf2, hok⟩ := hA g2 hg2
            exact ⟨hc, f2, by simp [hf2], hok⟩
          · intro f2 hf2 g2 hok2 hc2
            rcases List.mem_cons.1 hf2 with rfl | hf2r
            · have : Except.ok g = Except.ok g2 := hf.symm.trans hok2
              cases this
              exact absurd (hcondiff.2 hc2) hcond
            · exact hB f2 hf2r g2 hok2 hc2
          · intro hflag
            exact absurd (hcondiff.2 (Or.inr hflag)) hcond

/-- Witness for C7 on a one-feed store with no criteria. -/
theorem c7_filter_feeds_inclusion_witness :
    filter_feeds 0 QueryParams.empty [c5feedA] = Except.ok [c5feedA] ∧
    ((∀ g ∈ [c5feedA], (g.entries ≠ [] ∨ includeEmptyFlag QueryParams.empty = true) ∧
        ∃ f ∈ [c5feedA], filterOne 0 QueryParams.empty f = Except.ok g) ∧
      (∀ f ∈ [c5feedA], ∀ g, filterOne 0 QueryParams.empty f = Except.ok g →
        (g.entries ≠ [] ∨ includeEmptyFlag QueryParams.empty = true) → g ∈ [c5feedA]) ∧
      (includeEmptyFlag QueryParams.empty = true →
        ([c5feedA] : List RssFeed).length = ([c5feedA] : List RssFeed).length)) :=
  ⟨rfl, c7_filter_feeds_inclusion 0 QueryParams.empty [c5feedA] [c5feedA] rfl⟩

/-! ## The aggregate ordering claim (C4) -/

/-- The sort key of the aggregate: the naive seconds value of the parsed
publication date. -/
def dateKey (now : Int) (e : FeedEntry) : Int := (parse_date now e.pub_date).sec

/-- Pure stable insertion, descending: a new element passes every element
with a strictly smaller key and stops behind ties. -/
def insK (k : FeedEntry → Int) (e : FeedEntry) : List FeedEntry → List FeedEntry
  | [] => [e]
  | x :: xs => if k x < k e then e :: x :: xs else x :: insK k e xs

def sortK (k : FeedEntry → Int) (l : List FeedEntry) : List FeedEntry :=
  l.foldl (fun acc e => insK k e acc) []

theorem insK_perm (k : FeedEntry → Int) (e : FeedEntry) :
    ∀ l, List.Perm (insK k e l) (e :: l) := by
  intro l
  induction l with
  | nil => simp [insK]
  | cons x xs ih =>
    simp only [insK]
    by_cases h : k x < k e
    · rw [if_pos h]
    · rw [if_neg h]
      exact (ih.cons x).trans (List.Perm.swap e x xs)

theorem sortFold_perm (k : FeedEntry → Int) :
    ∀ (l acc : List FeedEntry), List.Perm (l.foldl (fun a e => insK k e a) acc) (l ++ acc) := by
  intro l
  induction l with
  | nil => intro acc; simp
  | cons e l ih =>
    intro acc
    show List.Perm (List.foldl _ (insK k e acc) l) _
    exact ((ih (insK k e acc)).trans
      (List.Perm.append_left l (insK_perm k e acc))).trans List.perm_middle

theorem sortK_perm (k : FeedEntry → Int) (l : List FeedEntry) : List.Perm (sortK k l) l := by
  have h := sortFold_perm k l []
  simpa [sortK] using h

theorem insK_pairwise (k : FeedEntry → Int) (e : FeedEntry) :
    ∀ l, List.Pairwise (fun a b => k b ≤ k a) l →
      List.Pairwise (fun a b => k b ≤ k a) (insK k e l) := by
  intro l
  induction l with
  | nil => intro _; simp [insK]
  | cons x xs ih =>
    intro hp
    rcases List.pairwise_cons.1 hp with ⟨hx, hxs⟩
    simp only [insK]
    by_cases h : k x < k e
    · rw [if_pos h]
      refine List.pairwise_cons.2 ⟨?_, hp⟩
      intro b hb
      rcases List.mem_cons.1 hb with rfl | hbx
      · omega
      · have := hx b hbx; omega
    · rw [if_neg h]
      refine List.pairwise_cons.2 ⟨?_, ih hxs⟩
      intro b hb
      rcases List.mem_cons.1 ((insK_perm k e xs).mem_iff.1 hb) with rfl | hbx
      · omega
      · exact hx b hbx

theorem sortFold_pairwise (k : FeedEntry → Int) :
    ∀ (l acc : List FeedEntry), List.Pairwise (fun a b => k b ≤ k a) acc →
      List.Pairwise (fun a b => k b ≤ k a) (l.foldl (fun a e => insK k e a) acc) := by
  intro l
  induction l with
  | nil => intro acc h; exact h
  | cons e l ih =>
    intro acc h
    exact ih (insK k e acc) (insK_pairwise k e acc h)

theorem sortK_pairwise (k : FeedEntry → Int) (l : List FeedEntry) :
    List.Pairwise (fun a b => k b ≤ k a) (sortK k l) :=
  sortFold_pairwise k l [] (by simp)

theorem insK_filter_ne (k : FeedEntry → Int) (e : FeedEntry) (c : Int) (hne : ¬ k e = c) :
    ∀ l, (insK k e l).filter (fun a => decide (k a = c)) =
      l.filter (fun a => decide (k a = c)) := by
  intro l
  induction l with
  | nil => simp [insK, hne]
  | cons x xs ih =>
    simp only [insK]
    by_cases h : k x < k e
    · rw [if_pos h]
      simp [List.filter_cons, hne]
    · rw [if_neg h]
      simp [List.filter_cons, ih]

theorem insK_filter_eq (k : FeedEntry → Int) (e : FeedEntry) (c : Int) (heq : k e = c) :
    ∀ l, List.Pairwise (fun a b => k b ≤ k a) l →
      (insK k e l).filter (fun a => decide (k a = c)) =
      l.filter (fun a => decide (k a = c)) ++ [e] := by
  intro l
  induction l with
  | nil => simp [insK, heq]
  | cons x xs ih =>
    intro hp
    rcases List.pairwise_cons.1 hp with ⟨hx, hxs⟩
    simp only [insK]
    by_cases h : k x < k e
    · rw [if_pos h]
      have hall : (x :: xs).filter (fun a => decide (k a = c)) = [] := by
        rw [List.filter_eq_nil_iff]
        intro a ha
        rcases List.mem_cons.1 ha with rfl | hax
        · simp; omega
        · have := hx a hax
          simp
          omega
      rw [hall]
      simp [List.filter_cons, heq, hall]
    · rw [if_neg h]
      simp only [List.filter_cons]
      by_cases hxc : k x = c
      · simp [hxc, ih hxs]
      · simp [hxc, ih hxs]

theorem sortFold_filter (k : FeedEntry → Int) (c : Int) :
    ∀ (l acc : List FeedEntry), List.Pairwise (fun a b => k b ≤ k a) acc →
      (l.foldl (fun a e => insK k e a) acc).filter (fun a => decide (k a = c)) =
        acc.filter (fun a => decide (k a = c)) ++ l.filter (fun a => decide (k a = c)) := by
  intro l
  induction l with
  | nil => intro acc _; simp
  | cons e l ih =>
    intro acc hacc
    show (List.foldl _ (insK k e acc) l).filter _ = _
    rw [ih (insK k e acc) (insK_pairwise k e acc hacc)]
    by_cases he : k e = c
    · rw [insK_filter_eq k e c he acc hacc]
      simp [List.filter_cons, he]
    · rw [insK_filter_ne k e c he acc]
      simp [List.filter_cons, he]

/-- Stability of the descending sort: entries with any fixed key keep
their relative order. -/
theorem sortK_filter (k : FeedEntry → Int) (c : Int) (l : List FeedEntry) :
    (sortK k l).filter (fun a => decide (k a = c)) =
      l.filter (fun a => decide (k a = c)) := by
  have h := sortFold_filter k c l [] (by simp)
  simpa [sortK] using h

theorem insDesc_eq_insK (now : Int) (e : FeedEntry)
    (he : (parse_date now e.pub_date).off = none) :
    ∀ acc, (∀ x ∈ acc, (parse_date now x.pub_date).off = none) →
      insDesc now e acc = some (insK (dateKey now) e acc) := by
  intro acc
  induction acc with
  | nil => intro _; rfl
  | cons x xs ih =>
    intro hacc
    have hx := hacc x (by simp)
    have hpy : pyLt (parse_date now x.pub_date) (parse_date now e.pub_date)
        = some (decide (dateKey now x < dateKey now e)) := by
      simp [pyLt, hx, he, dateKey]
    by_cases h : dateKey now x < dateKey now e
    · rw [show decide (dateKey now x < dateKey now e) = true by simp [h]] at hpy
      simp only [insDesc, hpy, insK, if_pos h]
    · rw [show decide (dateKey now x < dateKey now e) = false by simp [h]] at hpy
      simp only [insDesc, hpy, insK, if_neg h]
      rw [ih (fun y hy => hacc y (by simp [hy]))]

theorem sortDescGo_eq (now : Int) :
    ∀ (l acc : List FeedEntry), (∀ e ∈ l, (parse_date now e.pub_date).off = none) →
      (∀ x ∈ acc, (parse_date now x.pub_date).off = none) →
      sortDescGo now acc l = some (l.foldl (fun a e => insK (dateKey now) e a) acc) := by
  intro l
  induction l with
  | nil => intro acc _ _; rfl
  | cons e l ih =>
    intro acc hl hacc
    have hacc2 : ∀ x ∈ insK (dateKey now) e acc, (parse_date now x.pub_date).off = none := by
      intro x hx
      rcases List.mem_cons.1 ((insK_perm (dateKey now) e acc).mem_iff.1 hx) with rfl | hxa
      · exact hl x (by simp)
      · exact hacc x hxa
    simp only [sortDescGo, insDesc_eq_insK now e (hl e (by simp)) acc hacc]
    exact ih (insK (dateKey now) e acc) (fun y hy => hl y (by simp [hy])) hacc2

theorem sortDesc_eq_sortK (now : Int) (l : List FeedEntry)
    (hl : ∀ e ∈ l, (parse_date now e.pub_date).off = none) :
    sortDesc now l = some (sortK (dateKey now) l) :=
  sortDescGo_eq now l [] hl (by simp)

theorem consTrunc_subset (maxE : Nat) (e : FeedEntry) (l : List FeedEntry) :
    ∀ x ∈ consTrunc maxE e l, x = e ∨ x ∈ l := by
  intro x hx
  rw [consTrunc_eq_take] at hx
  exact List.mem_cons.1 (List.take_subset _ _ hx)

theorem combineStep_shape (maxE : Nat) (t : String) :
    ∀ (l acc : List FeedEntry) (x : FeedEntry),
      x ∈ l.foldl (fun a e => consTrunc maxE (bracketCopy t e) a) acc →
      (∃ e ∈ l, x = bracketCopy t e) ∨ x ∈ acc := by
  intro l
  induction l with
  | nil => intro acc x hx; exact Or.inr hx
  | cons e l ih =>
    intro acc x hx
    rcases ih (consTrunc maxE (bracketCopy t e) acc) x hx with ⟨e2, he2, hxe⟩ | hin
    · exact Or.inl ⟨e2, by simp [he2], hxe⟩
    · rcases consTrunc_subset maxE (bracketCopy t e) acc x hin with rfl | hacc
      · exact Or.inl ⟨e, by simp, rfl⟩
      · exact Or.inr hacc

theorem combineAll_shape (maxE : Nat) :
    ∀ (fs : List RssFeed) (acc : List FeedEntry) (x : FeedEntry),
      x ∈ fs.foldl (combineStep maxE) acc →
      (∃ f ∈ fs, ∃ e ∈ f.entries, x = bracketCopy f.title e) ∨ x ∈ acc := by
  intro fs
  induction fs with
  | nil => intro acc x hx; exact Or.inr hx
  | cons f fs ih =>
    intro acc x hx
    rcases ih (combineStep maxE acc f) x hx with ⟨f2, hf2, he⟩ | hin
    · exact Or.inl ⟨f2, by simp [hf2], he⟩
    · rcases combineStep_shape maxE f.title f.entries acc x hin with ⟨e2, he2, hxe⟩ | hacc
      · exact Or.inl ⟨f, by simp, e2, he2, hxe⟩
      · exact Or.inr hacc

/-- C4 (amended): every item of both aggregate documents carries its
source feed's bracketed title (conjunct 5); for the all-feeds document,
when every combined entry's date parses offset-naive the sort succeeds
and yields the stable descending reordering of the combined list —
sorted (conjunct 2), a permutation (conjunct 3), ties in merge order
(conjunct 4); the search-results document, however, is not date-sorted:
its item list is the reverse of the filtered feeds' copies in merge
order (conjunct 6). -/
theorem c4_aggregate_order (now : Int) (maxE : Nat) (feeds : List RssFeed)
    (hn : ∀ x ∈ combineAll maxE feeds, (parse_date now x.pub_date).off = none) :
    allFeedsXmlEntries now maxE feeds =
      some (sortK (dateKey now) (combineAll maxE feeds)) ∧
    List.Pairwise (fun a b => dateKey now b ≤ dateKey now a)
      (sortK (dateKey now) (combineAll maxE feeds)) ∧
    List.Perm (sortK (dateKey now) (combineAll maxE feeds)) (combineAll maxE feeds) ∧
    (∀ c : Int,
      (sortK (dateKey now) (combineAll maxE feeds)).filter
          (fun a => decide (dateKey now a = c)) =
        (combineAll maxE feeds).filter (fun a => decide (dateKey now a = c))) ∧
    (∀ x ∈ combineAll maxE feeds,
      ∃ f ∈ feeds, ∃ e ∈ f.entries, x = bracketCopy f.title e) ∧
    (∀ (qp : QueryParams) (res : List RssFeed), filter_feeds now qp feeds = Except.ok res →
      (flatCopies res).length ≤ maxE →
      searchXmlEntries now maxE qp feeds = Except.ok ((flatCopies res).reverse)) := by
  refine ⟨sortDesc_eq_sortK now _ hn, sortK_pairwise _ _, sortK_perm _ _,
    fun c => sortK_filter _ c _, ?_, ?_⟩
  · intro x hx
    rcases combineAll_shape maxE feeds [] x hx with h | h
    · exact h
    · exact absurd h (by simp)
  · intro qp res hres hlen
    simp only [searchXmlEntries, hres]
    congr 1
    unfold combineAll
    rw [combineFold_of_le maxE res [] (by simpa using hlen)]
    simp

def c4feedAEntry : FeedEntry := ⟨"a1", "l", "d", "Mon, 01 Jan 2024 00:00:00 GMT", "ga", none⟩

def c4feedBEntry : FeedEntry := ⟨"b1", "l", "d", "Sat, 01 Jun 2024 00:00:00 GMT", "gb", none⟩

/-- Counterexample to C4 as stated: the search-results document is not
date-sorted.  With the newer feed stored first, the combined item list
begins with Feed A's item dated 2024-01-01 and ends with Feed B's item
dated 2024-06-01 — ascending, not descending, in particular Feed B's
item does not appear before Feed A's. -/
theorem c4_search_unsorted_cex :
    searchXmlEntries 0 100 QueryParams.empty [c5feedB, c5feedA] =
      Except.ok [bracketCopy "Feed A" c4feedAEntry, bracketCopy "Feed B" c4feedBEntry] ∧
    dateKey 0 (bracketCopy "Feed A" c4feedAEntry) <
      dateKey 0 (bracketCopy "Feed B" c4feedBEntry) :=
  ⟨rfl, by decide⟩

/-- Witness for the amended C4 on the claim's two-feed example store. -/
theorem c4_aggregate_order_witness :
    (∀ x ∈ combineAll 100 [c5feedA, c5feedB], (parse_date 0 x.pub_date).off = none) ∧
    (allFeedsXmlEntries 0 100 [c5feedA, c5feedB] =
        some (sortK (dateKey 0) (combineAll 100 [c5feedA, c5feedB])) ∧
      List.Pairwise (fun a b => dateKey 0 b ≤ dateKey 0 a)
        (sortK (dateKey 0) (combineAll 100 [c5feedA, c5feedB])) ∧
      List.Perm (sortK (dateKey 0) (combineAll 100 [c5feedA, c5feedB]))
        (combineAll 100 [c5feedA, c5feedB]) ∧
      (∀ c : Int,
        (sortK (dateKey 0) (combineAll 100 [c5feedA, c5feedB])).filter
            (fun a => decide (dateKey 0 a = c)) =
          (combineAll 100 [c5feedA, c5feedB]).filter (fun a => decide (dateKey 0 a = c))) ∧
      (∀ x ∈ combineAll 100 [c5feedA, c5feedB],
        ∃ f ∈ [c5feedA, c5feedB], ∃ e ∈ f.entries, x = bracketCopy f.title e) ∧
      (∀ (qp : QueryParams) (res : List RssFeed),
        filter_feeds 0 qp [c5feedA, c5feedB] = Except.ok res →
        (flatCopies res).length ≤ 100 →
        searchXmlEntries 0 100 qp [c5feedA, c5feedB] = Except.ok ((flatCopies res).reverse))) :=
  ⟨by decide, c4_aggregate_order 0 100 [c5feedA, c5feedB] (by decide)⟩
